import Mathlib

/-!
Verification of the Aegis402 clearing agent (`src/aegis402/my-app/src/index.ts`,
class `Aegis402`) against its natural-language specification.

The registry state (merchants, payments, skill index, watch set) is embedded as
association lists that mirror the JavaScript `Map`/`Set` semantics: insertion
order is preserved, `set` on an existing key replaces the value in place, and
lookup returns the first (unique) binding.  JavaScript `bigint` arithmetic is
embedded as `Int`.  The on-ledger CreditManager contract is embedded from its
Solidity source, `CreditManager.sol`, which is included at the end of
`src/README.md`: a write either satisfies all of its require clauses and
commits the storage mutation, or reverts with the require message.
Per-merchant RPC reads performed by `handleQuote` are passed in as oracles, so
that a failing read can be represented.
-/

namespace Aegis

/-- Lowercasing of address strings, mirroring JavaScript `toLowerCase` on the
ASCII addresses used throughout the source. -/
def strLower (s : String) : String := ⟨s.data.map Char.toLower⟩

/-- Lookup in an association-list map (JavaScript `Map.get`). -/
def mapGet {α : Type} (m : List (String × α)) (k : String) : Option α :=
  (m.find? (fun p => p.1 = k)).map (fun p => p.2)

/-- Insert-or-replace in an association-list map (JavaScript `Map.set`):
an existing binding is replaced in place, a new key is appended. -/
def mapSet {α : Type} (m : List (String × α)) (k : String) (v : α) :
    List (String × α) :=
  if m.any (fun p => p.1 = k) then
    m.map (fun p => if p.1 = k then (k, v) else p)
  else
    m ++ [(k, v)]

/-- Add to an insertion-ordered string set (JavaScript `Set.add`). -/
def setAdd (l : List String) (a : String) : List String :=
  if a ∈ l then l else l ++ [a]

/-- Payment lifecycle status, from `types.ts` (`PaymentRecord.status`). -/
inductive PayStatus
  | pending
  | settled
  | slashed
  | expired
deriving DecidableEq

/-- String rendering of a status, as it appears in response messages. -/
def PayStatus.toStr : PayStatus → String
  | .pending => "pending"
  | .settled => "settled"
  | .slashed => "slashed"
  | .expired => "expired"

/-- `MerchantRecord` from `types.ts`. -/
structure MerchantRecord where
  address : String
  agentId : String
  x402Endpoint : String
  skills : List String
  stake : Int
  creditLimit : Int
  exposure : Int
  registeredAt : Int
  active : Bool
deriving DecidableEq

/-- `PaymentRecord` from `types.ts`. -/
structure PaymentRecord where
  txHash : String
  merchant : String
  client : String
  amount : Int
  deadline : Int
  status : PayStatus
  createdAt : Int
deriving DecidableEq

/-- `TransferEvent` from `types.ts` (the field `from` is renamed `fromAddr`,
`to` is renamed `toAddr`, since `from` is a Lean keyword). -/
structure TransferEvent where
  txHash : String
  fromAddr : String
  toAddr : String
  amount : Int
  blockNumber : Int
  timestamp : Int
deriving DecidableEq

/-- The in-memory registry of the `Aegis402` class: `merchants`, `payments`,
`skillIndex`, plus the chain watcher watch set (`subscribedMerchants` in
`chain-watcher.ts`). -/
structure AegisState where
  merchants : List (String × MerchantRecord)
  payments : List (String × PaymentRecord)
  skillIndex : List (String × List String)
  watchSet : List String
deriving DecidableEq

/-- On-ledger merchant state as returned by `CreditManagerClient.getMerchant`
(`credit-manager.ts`, `MerchantOnChain`). -/
structure LedgerMerchant where
  stake : Int
  creditLimit : Int
  outstandingExposure : Int
  agentId : String
  x402Endpoint : String
  active : Bool
deriving DecidableEq

/-- The on-ledger CreditManager contract state: a mapping from merchant
addresses to their on-ledger records.  Absent addresses read as the all-zero
record, as a Solidity mapping does. -/
structure Ledger where
  merchants : List (String × LedgerMerchant)
deriving DecidableEq

/-- The all-zero on-ledger merchant record (the Solidity mapping default). -/
def LedgerMerchant.zero : LedgerMerchant :=
  { stake := 0, creditLimit := 0, outstandingExposure := 0,
    agentId := "", x402Endpoint := "", active := false }

/-- Read a merchant from the ledger, defaulting to the zero record.  Solidity
mapping keys are address values, so two spellings of the same hex address that
differ only in letter case denote the same storage slot; the key is therefore
the lowercased address. -/
def ledgerView (led : Ledger) (addr : String) : LedgerMerchant :=
  (mapGet led.merchants (strLower addr)).getD LedgerMerchant.zero

/-- `CreditManager.recordPayment` from `CreditManager.sol` (the contract
source is included at the end of `src/README.md`):
`require(m.active, "Not active")`, then
`require(m.outstandingExposure + amount <= m.creditLimit, "Credit exceeded")`,
then `m.outstandingExposure += amount`.  All quantities are `uint256`
(non-negative); the `onlyAegis402` modifier is always satisfied because every
call made by the clearing agent is signed with the agent key. -/
def ledgerRecordPayment (led : Ledger) (addr : String) (amount : Int) :
    Except String Ledger :=
  if !(ledgerView led addr).active then .error "Not active"
  else if (ledgerView led addr).outstandingExposure + amount
      > (ledgerView led addr).creditLimit then
    .error "Credit exceeded"
  else
    .ok ⟨mapSet led.merchants (strLower addr)
      { ledgerView led addr with
        outstandingExposure :=
          (ledgerView led addr).outstandingExposure + amount }⟩

/-- `CreditManager.clearExposure` from `CreditManager.sol` (included at the
end of `src/README.md`):
`require(m.outstandingExposure >= amount, "Invalid amount")`, then
`m.outstandingExposure -= amount`.  There is no active check. -/
def ledgerClearExposure (led : Ledger) (addr : String) (amount : Int) :
    Except String Ledger :=
  if (ledgerView led addr).outstandingExposure < amount then
    .error "Invalid amount"
  else
    .ok ⟨mapSet led.merchants (strLower addr)
      { ledgerView led addr with
        outstandingExposure :=
          (ledgerView led addr).outstandingExposure - amount }⟩

/-- `CreditManager.slash` from `CreditManager.sol` (included at the end of
`src/README.md`): `require(m.stake >= amount, "Insufficient stake")`, then
`require(m.outstandingExposure >= amount, "No exposure")`, then both stake and
outstanding exposure decrease and `amount` of the token is transferred to the
client (the token balances themselves are not tracked here). -/
def ledgerSlash (led : Ledger) (addr : String) (amount : Int) :
    Except String Ledger :=
  if (ledgerView led addr).stake < amount then .error "Insufficient stake"
  else if (ledgerView led addr).outstandingExposure < amount then
    .error "No exposure"
  else
    .ok ⟨mapSet led.merchants (strLower addr)
      { ledgerView led addr with
        stake := (ledgerView led addr).stake - amount,
        outstandingExposure :=
          (ledgerView led addr).outstandingExposure - amount }⟩

/-- The configuration fields of `Aegis402Config` that the clearing logic
reads. -/
structure Config where
  defaultDeadlineSeconds : Int
deriving DecidableEq

/-- `Aegis402.onPaymentDetected` (index.ts lines 1256-1314): skip transfers
from the agent itself, skip unregistered recipients, call `recordPayment`
on-ledger and, only if it succeeds, insert the payment record and increase the
local exposure.  Note the source performs no duplicate-transaction-hash check
before inserting. -/
def onPaymentDetected (cfg : Config) (agentAddr : String) (led : Ledger)
    (st : AegisState) (ev : TransferEvent) : Ledger × AegisState :=
  if strLower ev.fromAddr = strLower agentAddr then (led, st)
  else
    let merchantAddress := strLower ev.toAddr
    match mapGet st.merchants merchantAddress with
    | none => (led, st)
    | some merchant =>
      match ledgerRecordPayment led ev.toAddr ev.amount with
      | .error _ => (led, st)
      | .ok led' =>
        let deadline := ev.timestamp + cfg.defaultDeadlineSeconds
        let payment : PaymentRecord :=
          { txHash := ev.txHash, merchant := ev.toAddr, client := ev.fromAddr,
            amount := ev.amount, deadline := deadline, status := .pending,
            createdAt := ev.timestamp }
        (led',
          { st with
            payments := mapSet st.payments ev.txHash payment,
            merchants := mapSet st.merchants merchantAddress
              { merchant with exposure := merchant.exposure + ev.amount } })

/-- `SettleResponse` from `types.ts`; the amount is kept as an integer (the
server stringifies it at the HTTP boundary). -/
structure SettleResponse where
  success : Bool
  merchant : String
  amount : Int
  message : String
deriving DecidableEq

/-- `Aegis402.handleSettle` (index.ts lines 1086-1144): reject an unknown
transaction hash, reject a non-pending payment, call `clearExposure`
on-ledger, and only on success mark the payment settled and decrease the
local exposure of the merchant when it is present in the registry. -/
def handleSettle (led : Ledger) (st : AegisState) (txHash : String) :
    Ledger × AegisState × SettleResponse :=
  match mapGet st.payments txHash with
  | none =>
    (led, st, ⟨false, "", 0, "Payment record not found"⟩)
  | some payment =>
    if payment.status ≠ PayStatus.pending then
      (led, st, ⟨false, payment.merchant, payment.amount,
        "Payment already " ++ payment.status.toStr⟩)
    else
      match ledgerClearExposure led payment.merchant payment.amount with
      | .error e =>
        (led, st, ⟨false, payment.merchant, payment.amount, e⟩)
      | .ok led' =>
        let st' : AegisState :=
          { st with
            payments := mapSet st.payments txHash
              { payment with status := .settled },
            merchants :=
              match mapGet st.merchants (strLower payment.merchant) with
              | none => st.merchants
              | some m => mapSet st.merchants (strLower payment.merchant)
                  { m with exposure := m.exposure - payment.amount } }
        (led', st', ⟨true, payment.merchant, payment.amount,
          "Exposure cleared successfully"⟩)

/-- `SlashResponse` from `types.ts`. -/
structure SlashResponse where
  success : Bool
  merchant : String
  client : String
  slashedAmount : Int
  refundTx : Option String
  message : String
deriving DecidableEq

/-- `Aegis402.handleSlash` (index.ts lines 1150-1250): reject an unknown hash,
then a non-pending payment, then a deadline that has not yet passed, then a
caller that is not the original payer (case-insensitively); finally call
`slash` on-ledger and only on success mark the payment slashed and decrease
the local exposure and stake of the merchant when present. -/
def handleSlash (led : Ledger) (st : AegisState) (txHash : String)
    (clientAddress : String) (now : Int) : Ledger × AegisState × SlashResponse :=
  match mapGet st.payments txHash with
  | none =>
    (led, st, ⟨false, "", clientAddress, 0, none, "Payment record not found"⟩)
  | some payment =>
    if payment.status ≠ PayStatus.pending then
      (led, st, ⟨false, payment.merchant, clientAddress, 0, none,
        "Payment already " ++ payment.status.toStr⟩)
    else if now < payment.deadline then
      (led, st, ⟨false, payment.merchant, clientAddress, 0, none,
        "Deadline not yet passed. Wait " ++ toString (payment.deadline - now)
          ++ " seconds"⟩)
    else if strLower payment.client ≠ strLower clientAddress then
      (led, st, ⟨false, payment.merchant, clientAddress, 0, none,
        "Only the original client can slash"⟩)
    else
      match ledgerSlash led payment.merchant payment.amount with
      | .error e =>
        (led, st, ⟨false, payment.merchant, clientAddress, 0, none, e⟩)
      | .ok led' =>
        let st' : AegisState :=
          { st with
            payments := mapSet st.payments txHash
              { payment with status := .slashed },
            merchants :=
              match mapGet st.merchants (strLower payment.merchant) with
              | none => st.merchants
              | some m => mapSet st.merchants (strLower payment.merchant)
                  { m with exposure := m.exposure - payment.amount,
                           stake := m.stake - payment.amount } }
        (led', st', ⟨true, payment.merchant, clientAddress, payment.amount,
          some "slash-receipt", "Merchant slashed, client refunded"⟩)

/-- One iteration of the loop body of `Aegis402.checkDeadlines` (index.ts
lines 1320-1350) for the map entry `kv`. -/
def tickStep (now : Int) (acc : Ledger × AegisState)
    (kv : String × PaymentRecord) : Ledger × AegisState :=
  let led := acc.1
  let st := acc.2
  let payment := kv.2
  if payment.status ≠ PayStatus.pending then (led, st)
  else if now < payment.deadline then (led, st)
  else
    match ledgerClearExposure led payment.merchant payment.amount with
    | .error _ => (led, st)
    | .ok led' =>
      (led',
        { st with
          payments := mapSet st.payments kv.1
            { payment with status := .expired },
          merchants :=
            match mapGet st.merchants (strLower payment.merchant) with
            | none => st.merchants
            | some m => mapSet st.merchants (strLower payment.merchant)
                { m with exposure := m.exposure - payment.amount } })

/-- `Aegis402.checkDeadlines`: sweep the payments table in insertion order and
auto-expire every pending payment whose deadline has passed, on-ledger first;
a failed `clearExposure` leaves the entry untouched. -/
def checkDeadlines (now : Int) (led : Ledger) (st : AegisState) :
    Ledger × AegisState :=
  st.payments.foldl (tickStep now) (led, st)

/-- `Aegis402.getMerchant` (index.ts lines 1383-1385): lookup by the
lowercased address. -/
def getMerchant (st : AegisState) (address : String) : Option MerchantRecord :=
  mapGet st.merchants (strLower address)

/-- Modelled from the spec: `reputation.ts` is not among the provided source
files; the specification defines the reputation factor as clamped to the
interval from 0.5 to 3.0. -/
def clampRho (rho : ℚ) : ℚ := max (1 / 2) (min 3 rho)

/-- Modelled from the spec: `calculateCreditLimit` of `reputation.ts` is not
among the provided source files; the specification defines the credit limit as
the floor of the stake amount scaled by the clamped reputation factor. -/
def calculateCreditLimit (stakeAmount : Int) (rho : ℚ) : Int :=
  ⌊(stakeAmount : ℚ) * clampRho rho⌋

/-- `SubscribeRequest` from `types.ts`. -/
structure SubscribeRequest where
  x402Endpoint : String
  skills : List String
  agentId : String
deriving DecidableEq

/-- `SubscribeResponse` from `types.ts`; the stake and credit limit are kept
as integers. -/
structure SubscribeResponse where
  success : Bool
  merchant : String
  stake : Int
  creditLimit : Int
  message : String
deriving DecidableEq

/-- The failure response built in the catch branch of
`Aegis402.handleSubscribe`: the registry is untouched and the message carries
the error reason, with the credit limit reported as zero. -/
def subscribeFail (merchantAddress : String) (stakeAmount : Int)
    (msg : String) : SubscribeResponse :=
  ⟨false, merchantAddress, stakeAmount, 0, msg⟩

/-- Outcomes of the external calls performed by `Aegis402.handleSubscribe`,
in program order: the reputation read, the USDC `approve` transaction, the
`allowance` read, the on-ledger merchant read (of which only the `active`
flag is used), the `subscribeFor` transaction and the `setCreditLimit`
transaction.  Any of them may throw, which the catch branch turns into a
failure response. -/
structure SubscribeOracles where
  repFactor : Except String ℚ
  approve : Except String Unit
  allowance : Except String Int
  merchantActive : Except String Bool
  subscribeForCall : Except String Unit
  setCreditLimitCall : Except String Unit

/-- Add one skill binding to the skill index, as steps 5 of
`Aegis402.handleSubscribe` do: create the set if absent, then `Set.add` the
lowercased merchant address. -/
def skillIndexAdd (idx : List (String × List String)) (skill addr : String) :
    List (String × List String) :=
  mapSet idx skill (setAdd ((mapGet idx skill).getD []) addr)

/-- `Aegis402.handleSubscribe` (index.ts lines 839-1000): read the reputation
factor, compute the credit limit, approve the stake and check the allowance,
call `subscribeFor` when the merchant is not yet active on-ledger, set the
credit limit, and only after all of that mutate the registry (merchant entry,
skill index, watch set).  Any thrown error is caught and returned as a failure
response without touching the registry. -/
def handleSubscribe (o : SubscribeOracles) (st : AegisState)
    (request : SubscribeRequest) (merchantAddress : String)
    (stakeAmount : Int) (now : Int) : AegisState × SubscribeResponse :=
  match o.repFactor with
  | .error e => (st, subscribeFail merchantAddress stakeAmount e)
  | .ok rho =>
    let creditLimit := calculateCreditLimit stakeAmount rho
    match o.approve with
    | .error e => (st, subscribeFail merchantAddress stakeAmount e)
    | .ok _ =>
      match o.allowance with
      | .error e => (st, subscribeFail merchantAddress stakeAmount e)
      | .ok allowance =>
        if allowance < stakeAmount then
          (st, subscribeFail merchantAddress stakeAmount
            ("Allowance too low! approved=" ++ toString allowance
              ++ ", required=" ++ toString stakeAmount))
        else
          match o.merchantActive with
          | .error e => (st, subscribeFail merchantAddress stakeAmount e)
          | .ok active =>
            match (if active then Except.ok () else o.subscribeForCall) with
            | .error e => (st, subscribeFail merchantAddress stakeAmount e)
            | .ok _ =>
              match o.setCreditLimitCall with
              | .error e => (st, subscribeFail merchantAddress stakeAmount e)
              | .ok _ =>
                let merchant : MerchantRecord :=
                  { address := merchantAddress, agentId := request.agentId,
                    x402Endpoint := request.x402Endpoint,
                    skills := request.skills, stake := stakeAmount,
                    creditLimit := creditLimit, exposure := 0,
                    registeredAt := now, active := true }
                let st' : AegisState :=
                  { st with
                    merchants := mapSet st.merchants (strLower merchantAddress)
                      merchant,
                    skillIndex := request.skills.foldl
                      (fun idx skill =>
                        skillIndexAdd idx skill (strLower merchantAddress))
                      st.skillIndex,
                    watchSet := setAdd st.watchSet (strLower merchantAddress) }
                (st', ⟨true, merchantAddress, stakeAmount, creditLimit,
                  "Subscribed with repFactor " ++ toString rho⟩)

/-- One element of `QuoteResponse.merchants` from `types.ts`; the available
capacity is kept as an integer and the reputation factor as a rational. -/
structure QuoteEntry where
  address : String
  x402Endpoint : String
  availableCapacity : Int
  repFactor : ℚ
  skills : List String
deriving DecidableEq

/-- The per-candidate body of the loop in `Aegis402.handleQuote`: skip an
unknown or inactive registry entry, read the fresh on-ledger merchant state
(`readM`), drop the candidate when that read throws or when the capacity is
below the requested price, read the reputation factor (`readRep`, also inside
the try block), and otherwise produce the response entry. -/
def quoteCandidate (st : AegisState)
    (readM : String → Except String LedgerMerchant)
    (readRep : String → Except String ℚ) (price : Int) (address : String) :
    Option QuoteEntry :=
  match mapGet st.merchants address with
  | none => none
  | some merchant =>
    if !merchant.active then none
    else
      match readM address with
      | .error _ => none
      | .ok onChainData =>
        let capacity := onChainData.creditLimit - onChainData.outstandingExposure
        if capacity < price then none
        else
          match readRep address with
          | .error _ => none
          | .ok repFactor =>
            some ⟨merchant.address, merchant.x402Endpoint, capacity,
              repFactor, merchant.skills⟩

/-- One halving per unit of fuel; with fuel at least the bit length this
computes the floor of the base-two logarithm.  (Structural recursion on the
fuel keeps the definition kernel-reducible.) -/
def log2Aux : Nat → Nat → Nat
  | 0, _ => 0
  | fuel + 1, n => if n < 2 then 0 else log2Aux fuel (n / 2) + 1

/-- Floor of the base-two logarithm of a positive natural number. -/
def ilog2 (n : Nat) : Nat := log2Aux n n

/-- An IEEE-754 double with unbounded exponent: the represented value is
`mantissa` times two to the `exponent`.  Every double arising in the quote
ranking (a rounded `uint256` quantity or a quotient of two of them) lies
strictly inside the normal double range, where this representation is
exact. -/
structure Dyadic where
  mantissa : Int
  exponent : Int
deriving DecidableEq

/-- Comparison of two dyadic values by cross-scaling the mantissas with the
exponent difference (pure integer arithmetic). -/
def Dyadic.ble (x y : Dyadic) : Bool :=
  if x.exponent ≤ y.exponent then
    decide (x.mantissa ≤ y.mantissa * 2 ^ (y.exponent - x.exponent).toNat)
  else
    decide (x.mantissa * 2 ^ (x.exponent - y.exponent).toNat ≤ y.mantissa)

/-- The order on dyadic values. -/
def Dyadic.le (x y : Dyadic) : Prop := Dyadic.ble x y = true

/-- The exact rational value of a dyadic. -/
def Dyadic.val (x : Dyadic) : ℚ := (x.mantissa : ℚ) * (2 : ℚ) ^ x.exponent

/-- Whether the positive fraction `n / d` is below two to the `e`
(pure integer arithmetic). -/
def ltPow2 (n d : Nat) (e : Int) : Bool :=
  if 0 ≤ e then n < d * 2 ^ e.toNat else n * 2 ^ (-e).toNat < d

/-- Round the positive fraction `n / d` to the nearest IEEE-754 double:
normalise into the binade of a 53-bit significand and round half to even. -/
def roundDyadicPos (n d : Nat) : Dyadic :=
  let f0 : Int := (ilog2 n : Int) - (ilog2 d : Int)
  let f : Int := if ltPow2 n d f0 then f0 - 1 else f0
  let scale : Int := f - 52
  let num : Nat := if 0 ≤ scale then n else n * 2 ^ (-scale).toNat
  let den : Nat := if 0 ≤ scale then d * 2 ^ scale.toNat else d
  let m : Nat := num / den
  let r : Nat := num - m * den
  let mr : Nat := if den < 2 * r ∨ (2 * r = den ∧ m % 2 = 1) then m + 1 else m
  ⟨(mr : Int), scale⟩

/-- JavaScript `Number(...)` applied to a bigint: the nearest double, ties to
even.  Integers up to two to the 53 are exact; beyond that, distinct values
can collapse to the same double. -/
def jsNumberInt (i : Int) : Dyadic :=
  if i = 0 then ⟨0, 0⟩
  else if i < 0 then
    let r := roundDyadicPos i.natAbs 1
    ⟨-r.mantissa, r.exponent⟩
  else roundDyadicPos i.natAbs 1

/-- JavaScript division of two double values: the exact quotient rounded
back to the nearest double.  Scaling by a power of two commutes with
rounding, so the quotient of the mantissas is rounded and the exponents are
subtracted.  (A zero divisor yields an infinity in JavaScript and is mapped
to zero here; `handleQuote` divides by `Number(price)`, which is zero only
for a zero price, where every ratio collapses anyway.) -/
def jsDivD (x y : Dyadic) : Dyadic :=
  if y.mantissa = 0 then ⟨0, 0⟩
  else if x.mantissa = 0 then ⟨0, 0⟩
  else
    let r := roundDyadicPos x.mantissa.natAbs y.mantissa.natAbs
    if xor (decide (x.mantissa < 0)) (decide (y.mantissa < 0)) then
      ⟨-r.mantissa, r.exponent + x.exponent - y.exponent⟩
    else
      ⟨r.mantissa, r.exponent + x.exponent - y.exponent⟩

/-- The ranking key the source comparator computes for an entry:
`Number(BigInt(a.availableCapacity)) / Number(requestedPrice)` evaluated in
double precision. -/
def quoteKey (price : Int) (q : QuoteEntry) : Dyadic :=
  jsDivD (jsNumberInt q.availableCapacity) (jsNumberInt price)

/-- The sort order: entry `a` may precede entry `b` exactly when the source
comparator value `ratioB - ratioA` (a correctly rounded double subtraction,
whose sign is the sign of the exact difference) is not positive, that is
when the double ratio of `a` is at least that of `b`. -/
def quotePrec (price : Int) (a b : QuoteEntry) : Prop :=
  Dyadic.le (quoteKey price b) (quoteKey price a)

instance (price : Int) : DecidableRel (quotePrec price) :=
  fun a b =>
    inferInstanceAs (Decidable (Dyadic.ble (quoteKey price b)
      (quoteKey price a) = true))

/-- `Aegis402.handleQuote` (index.ts lines 1006-1080): take the candidates
from the skill index, filter them through `quoteCandidate`, and sort the
survivors by `quotePrec price`: descending by the double-precision
capacity-to-price ratio.  `Array.prototype.sort` is required to be stable,
and with a consistent comparator a stable sort has a unique result, so the
(stable) insertion sort used here yields the very list the source
produces; rounding ties keep the filtered order. -/
def handleQuote (st : AegisState)
    (readM : String → Except String LedgerMerchant)
    (readRep : String → Except String ℚ) (skill : String) (price : Int) :
    List QuoteEntry :=
  let merchantAddresses := (mapGet st.skillIndex skill).getD []
  let matchingMerchants :=
    merchantAddresses.filterMap (quoteCandidate st readM readRep price)
  matchingMerchants.insertionSort (quotePrec price)

/-! Concrete example data used by the closed theorems below. -/

/-- A configuration with the default deadline of one hour. -/
def cfgD : Config := ⟨3600⟩

/-- A sample registered merchant record. -/
def merchRec1 : MerchantRecord :=
  { address := "0xmmm", agentId := "1", x402Endpoint := "http://m",
    skills := ["translate"], stake := 100, creditLimit := 100, exposure := 0,
    registeredAt := 0, active := true }

/-- A sample on-ledger merchant with credit limit 100 and no exposure. -/
def ledMerch1 : LedgerMerchant :=
  { stake := 100, creditLimit := 100, outstandingExposure := 0,
    agentId := "1", x402Endpoint := "http://m", active := true }

/-- A sample ledger holding `ledMerch1`. -/
def led1 : Ledger := ⟨[("0xmmm", ledMerch1)]⟩

/-- A sample registry state holding `merchRec1` and no payments. -/
def st1 : AegisState :=
  { merchants := [("0xmmm", merchRec1)], payments := [],
    skillIndex := [("translate", ["0xmmm"])], watchSet := ["0xmmm"] }

/-- A sample transfer of 30 units from a client to the merchant. -/
def ev1 : TransferEvent :=
  { txHash := "0xt1", fromAddr := "0xccc", toAddr := "0xmmm", amount := 30,
    blockNumber := 1, timestamp := 1000 }

/-- A pending payment of 30 units created from `ev1`. -/
def payP : PaymentRecord :=
  { txHash := "0xt1", merchant := "0xmmm", client := "0xccc", amount := 30,
    deadline := 4600, status := .pending, createdAt := 1000 }

/-- The ledger after `ev1` has been recorded: outstanding exposure 30. -/
def ledP : Ledger := ⟨[("0xmmm", { ledMerch1 with outstandingExposure := 30 })]⟩

/-- The registry state with the pending payment `payP` tracked. -/
def stP : AegisState :=
  { merchants := [("0xmmm", { merchRec1 with exposure := 30 })],
    payments := [("0xt1", payP)],
    skillIndex := [("translate", ["0xmmm"])], watchSet := ["0xmmm"] }

/-- The payment `payP` after settlement. -/
def settledPay : PaymentRecord := { payP with status := .settled }

/-- A registry state in which the payment `0xt1` is already settled. -/
def stTerm : AegisState :=
  { merchants := [("0xmmm", merchRec1)],
    payments := [("0xt1", settledPay)],
    skillIndex := [("translate", ["0xmmm"])], watchSet := ["0xmmm"] }

/-- A ledger on which the merchant has credit limit zero. -/
def ledZeroCL : Ledger := ⟨[("0xmmm", { ledMerch1 with creditLimit := 0 })]⟩

/-- A registry state that tracks the pending payment `payP` although its
merchant has no entry in the merchants map. -/
def stNoMerch : AegisState :=
  { merchants := [], payments := [("0xt1", payP)],
    skillIndex := [], watchSet := [] }

/-- A sample subscription request. -/
def reqW : SubscribeRequest :=
  { x402Endpoint := "http://m", skills := ["translate"], agentId := "7" }

/-- Subscription oracles in which the approval transaction fails. -/
def oApproveFail : SubscribeOracles :=
  { repFactor := .ok 1, approve := .error "approve failed",
    allowance := .ok 0, merchantActive := .ok false,
    subscribeForCall := .ok (), setCreditLimitCall := .ok () }

/-- Subscription oracles in which every external call succeeds and the
allowance covers the stake. -/
def oAllOk : SubscribeOracles :=
  { repFactor := .ok 1, approve := .ok (), allowance := .ok 100,
    merchantActive := .ok false, subscribeForCall := .ok (),
    setCreditLimitCall := .ok () }

/-- A registry state with three active merchants offering the same skill. -/
def stQ : AegisState :=
  { merchants :=
      [("0xaaa", { merchRec1 with address := "0xAAA" }),
       ("0xbbb", { merchRec1 with address := "0xBBB" }),
       ("0xeee", { merchRec1 with address := "0xEEE" })],
    payments := [],
    skillIndex := [("translate", ["0xaaa", "0xbbb", "0xeee"])],
    watchSet := ["0xaaa", "0xbbb", "0xeee"] }

/-- A fresh on-ledger read oracle: capacity 50 for the first merchant,
capacity 80 for the second, and an RPC error for the third. -/
def readMW : String → Except String LedgerMerchant := fun a =>
  if a = "0xaaa" then .ok { ledMerch1 with creditLimit := 50 }
  else if a = "0xbbb" then .ok { ledMerch1 with creditLimit := 80 }
  else .error "rpc error"

/-- A reputation oracle returning factor one for every merchant. -/
def readRepW : String → Except String ℚ := fun _ => .ok 1

/-- A registry state with two active merchants offering the same skill, used
to exercise capacities at the edge of double precision. -/
def stQbig : AegisState :=
  { merchants :=
      [("0xaaa", { merchRec1 with address := "0xAAA" }),
       ("0xbbb", { merchRec1 with address := "0xBBB" })],
    payments := [],
    skillIndex := [("translate", ["0xaaa", "0xbbb"])],
    watchSet := ["0xaaa", "0xbbb"] }

/-- Fresh on-ledger reads reporting capacity `2 ^ 53` for the first merchant
and `2 ^ 53 + 1` for the second: adjacent values at the edge of double
precision. -/
def readMbig : String → Except String LedgerMerchant := fun a =>
  if a = "0xaaa" then .ok { ledMerch1 with creditLimit := 9007199254740992 }
  else .ok { ledMerch1 with creditLimit := 9007199254740993 }

/-- Two strings are case variants when they agree pointwise up to letter
case. -/
def CaseVariant (a b : String) : Prop :=
  List.Forall₂ (fun c d => c.toLower = d.toLower) a.data b.data

/-! Helper lemmas about the association-list maps and the deadline sweep. -/

/-- Replacing the bindings of key `k` in place does not disturb the lookup of
a different key. -/
theorem mapGet_replace_ne {α : Type} {k k' : String} (h : k ≠ k') (v : α) :
    ∀ m : List (String × α),
      mapGet (m.map (fun p => if p.1 = k then (k, v) else p)) k' = mapGet m k' := by
  intro m
  induction m with
  | nil => rfl
  | cons hd tl ih =>
    by_cases hhd : hd.1 = k
    · simp only [List.map_cons, hhd, if_pos rfl]
      rw [mapGet, mapGet, List.find?_cons_of_neg _ (by simpa using h),
        List.find?_cons_of_neg _ (by simp [hhd, h])]
      exact ih
    · simp only [List.map_cons, if_neg hhd]
      by_cases hk' : hd.1 = k'
      · rw [mapGet, mapGet, List.find?_cons_of_pos _ (by simpa using hk'),
          List.find?_cons_of_pos _ (by simpa using hk')]
      · rw [mapGet, mapGet, List.find?_cons_of_neg _ (by simpa using hk'),
          List.find?_cons_of_neg _ (by simpa using hk')]
        exact ih

/-- Appending a binding of key `k` does not disturb the lookup of a different
key. -/
theorem mapGet_append_ne {α : Type} {k k' : String} (h : k ≠ k') (v : α) :
    ∀ m : List (String × α), mapGet (m ++ [(k, v)]) k' = mapGet m k' := by
  intro m
  induction m with
  | nil =>
    simp only [List.nil_append]
    rw [mapGet, List.find?_cons_of_neg _ (by simpa using h)]
    rfl
  | cons hd tl ih =>
    by_cases hk' : hd.1 = k'
    · rw [List.cons_append, mapGet, mapGet,
        List.find?_cons_of_pos _ (by simpa using hk'),
        List.find?_cons_of_pos _ (by simpa using hk')]
    · rw [List.cons_append, mapGet, mapGet,
        List.find?_cons_of_neg _ (by simpa using hk'),
        List.find?_cons_of_neg _ (by simpa using hk')]
      exact ih

/-- Setting key `k` does not disturb the binding of a different key. -/
theorem mapGet_mapSet_ne {α : Type} (m : List (String × α)) {k k' : String}
    (v : α) (h : k ≠ k') : mapGet (mapSet m k v) k' = mapGet m k' := by
  unfold mapSet
  split
  · exact mapGet_replace_ne h v m
  · exact mapGet_append_ne h v m

/-- Replacing the bindings of key `k` in place makes lookup of `k` return the
new value, provided some binding of `k` exists. -/
theorem mapGet_replace_self {α : Type} {k : String} (v : α) :
    ∀ m : List (String × α), m.any (fun p => p.1 = k) →
      mapGet (m.map (fun p => if p.1 = k then (k, v) else p)) k = some v := by
  intro m
  induction m with
  | nil => intro hany; simp at hany
  | cons hd tl ih =>
    intro hany
    by_cases hhd : hd.1 = k
    · simp only [List.map_cons, hhd, if_pos rfl]
      rw [mapGet, List.find?_cons_of_pos _ (by simp)]
      rfl
    · simp only [List.map_cons, if_neg hhd]
      rw [mapGet, List.find?_cons_of_neg _ (by simpa using hhd)]
      have htl : tl.any (fun p => p.1 = k) := by
        simpa [List.any_cons, hhd] using hany
      exact ih htl

/-- Appending a binding of key `k` makes lookup of `k` return the new value,
provided no binding of `k` existed. -/
theorem mapGet_append_self {α : Type} {k : String} (v : α) :
    ∀ m : List (String × α), ¬ m.any (fun p => p.1 = k) →
      mapGet (m ++ [(k, v)]) k = some v := by
  intro m
  induction m with
  | nil =>
    intro _
    simp only [List.nil_append]
    rw [mapGet, List.find?_cons_of_pos _ (by simp)]
    rfl
  | cons hd tl ih =>
    intro hany
    have hhd : ¬ hd.1 = k := by
      intro hc; exact hany (by simp [List.any_cons, hc])
    rw [List.cons_append, mapGet, List.find?_cons_of_neg _ (by simpa using hhd)]
    have htl : ¬ tl.any (fun p => p.1 = k) := by
      intro hc; exact hany (by simp [List.any_cons, hc])
    exact ih htl

/-- Setting key `k` makes lookup of `k` return the new value. -/
theorem mapGet_mapSet_self {α : Type} (m : List (String × α)) (k : String)
    (v : α) : mapGet (mapSet m k v) k = some v := by
  unfold mapSet
  split
  case isTrue hany => exact mapGet_replace_self v m hany
  case isFalse hany => exact mapGet_append_self v m (by simpa using hany)

/-- With unique keys, every binding of key `h` carries the value that lookup
returns. -/
theorem mapGet_unique {α : Type} {l : List (String × α)} {h : String} {p : α}
    (hn : (l.map Prod.fst).Nodup) (hget : mapGet l h = some p) :
    ∀ kv ∈ l, kv.1 = h → kv.2 = p := by
  induction l with
  | nil => intro kv hkv; simp at hkv
  | cons hd tl ih =>
    intro kv hkv hk
    by_cases hhd : hd.1 = h
    · have hp : hd.2 = p := by
        rw [mapGet, List.find?_cons_of_pos _ (by simpa using hhd)] at hget
        simpa using hget
      rcases List.mem_cons.mp hkv with rfl | hmem
      · exact hp
      · exfalso
        have : hd.1 ∈ tl.map Prod.fst := by
          rw [hhd, ← hk]
          exact List.mem_map_of_mem Prod.fst hmem
        exact (List.nodup_cons.mp hn).1 this
    · rw [mapGet, List.find?_cons_of_neg _ (by simpa using hhd)] at hget
      rcases List.mem_cons.mp hkv with rfl | hmem
      · exact absurd hk hhd
      · exact ih (List.nodup_cons.mp hn).2 hget kv hmem hk

/-- A deadline-sweep step leaves the binding of key `h` untouched when the
entry under scrutiny has a different key or is not pending. -/
theorem tickStep_preserves (now : Int) (acc : Ledger × AegisState)
    (kv : String × PaymentRecord) {h : String} {p : PaymentRecord}
    (hor : kv.1 ≠ h ∨ kv.2.status ≠ PayStatus.pending)
    (hget : mapGet acc.2.payments h = some p) :
    mapGet (tickStep now acc kv).2.payments h = some p := by
  unfold tickStep
  by_cases hs : kv.2.status = PayStatus.pending
  · have hk : kv.1 ≠ h := hor.resolve_right (fun hc => hc hs)
    by_cases hd : now < kv.2.deadline
    · simpa [hs, hd] using hget
    · simp only [hs, ne_eq, not_true_eq_false, if_false, if_neg hd]
      split
      · exact hget
      · simpa [mapGet_mapSet_ne _ _ hk] using hget
  · simpa [hs] using hget

/-- Folding the deadline sweep over entries that all either have a different
key or are not pending preserves the binding of key `h`. -/
theorem foldl_tickStep_preserves (now : Int) {h : String} {p : PaymentRecord} :
    ∀ (l : List (String × PaymentRecord)) (acc : Ledger × AegisState),
      (∀ kv ∈ l, kv.1 ≠ h ∨ kv.2.status ≠ PayStatus.pending) →
      mapGet acc.2.payments h = some p →
      mapGet ((l.foldl (tickStep now) acc).2.payments) h = some p := by
  intro l
  induction l with
  | nil => intro acc _ hget; simpa using hget
  | cons hd tl ih =>
    intro acc hall hget
    rw [List.foldl_cons]
    exact ih _ (fun kv hkv => hall kv (List.mem_cons_of_mem _ hkv))
      (tickStep_preserves now acc hd (hall hd (List.mem_cons_self _ _)) hget)

/-- A deadline-sweep step is the identity on an entry that is not pending or
whose deadline has not yet passed. -/
theorem tickStep_noop (now : Int) (acc : Ledger × AegisState)
    (kv : String × PaymentRecord)
    (hor : kv.2.status ≠ PayStatus.pending ∨ now < kv.2.deadline) :
    tickStep now acc kv = acc := by
  unfold tickStep
  by_cases hs : kv.2.status = PayStatus.pending
  · have hd : now < kv.2.deadline := hor.resolve_left (fun hc => hc hs)
    simp [hs, hd]
  · simp [hs]

/-- Folding the deadline sweep over a list of entries that are all not
pending or not yet due does nothing. -/
theorem foldl_tickStep_noop (now : Int) :
    ∀ (l : List (String × PaymentRecord)) (acc : Ledger × AegisState),
      (∀ kv ∈ l, kv.2.status ≠ PayStatus.pending ∨ now < kv.2.deadline) →
      l.foldl (tickStep now) acc = acc := by
  intro l
  induction l with
  | nil => intro acc _; rfl
  | cons hd tl ih =>
    intro acc hall
    rw [List.foldl_cons, tickStep_noop now acc hd (hall hd (List.mem_cons_self _ _))]
    exact ih acc (fun kv hkv => hall kv (List.mem_cons_of_mem _ hkv))

/-- Lookup of key `h` finds the first explicit binding when the prefix
contains no binding of `h`. -/
theorem mapGet_append_cons {α : Type} :
    ∀ (l₁ : List (String × α)) (h : String) (v : α)
      (l₂ : List (String × α)),
      (∀ kv ∈ l₁, kv.1 ≠ h) → mapGet (l₁ ++ (h, v) :: l₂) h = some v := by
  intro l₁ h v l₂
  induction l₁ with
  | nil =>
    intro _
    rw [List.nil_append, mapGet, List.find?_cons_of_pos _ (by simp)]
    rfl
  | cons hd tl ih =>
    intro hk
    rw [List.cons_append, mapGet, List.find?_cons_of_neg _
      (by simpa using hk hd (List.mem_cons_self _ _))]
    exact ih (fun kv hkv => hk kv (List.mem_cons_of_mem _ hkv))

/-- The deadline-sweep step on a pending entry whose deadline has passed:
exactly the source mutations, keyed to the outcome of `clearExposure`. -/
theorem tickStep_eligible (now : Int) (acc : Ledger × AegisState)
    (h : String) (p : PaymentRecord)
    (hpend : p.status = PayStatus.pending) (hdue : p.deadline ≤ now) :
    tickStep now acc (h, p) =
      match ledgerClearExposure acc.1 p.merchant p.amount with
      | .error _ => acc
      | .ok led' =>
        (led',
          { acc.2 with
            payments := mapSet acc.2.payments h ({ p with status := .expired }),
            merchants :=
              match mapGet acc.2.merchants (strLower p.merchant) with
              | none => acc.2.merchants
              | some m => mapSet acc.2.merchants (strLower p.merchant)
                  ({ m with exposure := m.exposure - p.amount }) }) := by
  unfold tickStep
  simp [hpend, not_lt.mpr hdue]

/-- The exact behaviour of one deadline sweep when a single entry `(h, p)` is
due and every other entry is not pending or not yet due: the sweep performs
the `clearExposure` call for `p` and commits exactly the source mutations on
success, or leaves everything unchanged on failure. -/
theorem checkDeadlines_focus (now : Int) (led : Ledger) (st : AegisState)
    (l₁ l₂ : List (String × PaymentRecord)) (h : String) (p : PaymentRecord)
    (hsplit : st.payments = l₁ ++ (h, p) :: l₂)
    (hother : ∀ kv ∈ l₁ ++ l₂,
      kv.2.status ≠ PayStatus.pending ∨ now < kv.2.deadline)
    (hpend : p.status = PayStatus.pending) (hdue : p.deadline ≤ now) :
    checkDeadlines now led st =
      match ledgerClearExposure led p.merchant p.amount with
      | .error _ => (led, st)
      | .ok led' =>
        (led',
          { st with
            payments := mapSet st.payments h { p with status := .expired },
            merchants :=
              match mapGet st.merchants (strLower p.merchant) with
              | none => st.merchants
              | some m => mapSet st.merchants (strLower p.merchant)
                  { m with exposure := m.exposure - p.amount } }) := by
  have h₁ : ∀ kv ∈ l₁, kv.2.status ≠ PayStatus.pending ∨ now < kv.2.deadline :=
    fun kv hkv => hother kv (List.mem_append_left _ hkv)
  have h₂ : ∀ kv ∈ l₂, kv.2.status ≠ PayStatus.pending ∨ now < kv.2.deadline :=
    fun kv hkv => hother kv (List.mem_append_right _ hkv)
  obtain ⟨ms, ps, si, ws⟩ := st
  simp only at hsplit
  subst hsplit
  unfold checkDeadlines
  dsimp only
  rw [List.foldl_append, foldl_tickStep_noop now l₁ _ h₁, List.foldl_cons]
  have hstep : tickStep now
      (led, (⟨ms, l₁ ++ (h, p) :: l₂, si, ws⟩ : AegisState)) (h, p) =
      match ledgerClearExposure led p.merchant p.amount with
      | .error _ => (led, (⟨ms, l₁ ++ (h, p) :: l₂, si, ws⟩ : AegisState))
      | .ok led' =>
        (led',
          (⟨match mapGet ms (strLower p.merchant) with
            | none => ms
            | some m => mapSet ms (strLower p.merchant)
                { m with exposure := m.exposure - p.amount },
            mapSet (l₁ ++ (h, p) :: l₂) h { p with status := .expired },
            si, ws⟩ : AegisState)) := by
    unfold tickStep
    simp [hpend, not_lt.mpr hdue]
  rw [hstep]
  split
  · exact foldl_tickStep_noop now l₂ _ h₂
  · exact foldl_tickStep_noop now l₂ _ h₂

/-- C1: `onPaymentDetected` is claimed to be idempotent per transaction hash,
but the source of `Aegis402.onPaymentDetected` performs no lookup of
`event.txHash` in the payments table before recording.  Processing the very
same 30-unit transfer twice (the chain watcher redelivers a block range after
a polling failure) records the payment on-ledger twice and doubles the local
exposure from 30 to 60, so processing the transfer twice is not equal to
processing it once. -/
theorem onPaymentDetected_not_idempotent :
    (getMerchant (onPaymentDetected cfgD "0xaegis" led1 st1 ev1).2
        "0xmmm").map MerchantRecord.exposure = some 30 ∧
    (getMerchant (onPaymentDetected cfgD "0xaegis"
        (onPaymentDetected cfgD "0xaegis" led1 st1 ev1).1
        (onPaymentDetected cfgD "0xaegis" led1 st1 ev1).2 ev1).2
        "0xmmm").map MerchantRecord.exposure = some 60 ∧
    onPaymentDetected cfgD "0xaegis"
        (onPaymentDetected cfgD "0xaegis" led1 st1 ev1).1
        (onPaymentDetected cfgD "0xaegis" led1 st1 ev1).2 ev1 ≠
      onPaymentDetected cfgD "0xaegis" led1 st1 ev1 := by
  decide

/-- C4: `handleSettle` raises exactly as specified and is atomic on ledger
failure: an absent transaction hash yields the failure message
`Payment record not found`; a non-pending payment yields
`Payment already <status>`; a failing `clear_exposure` returns the ledger
error with the ledger, the payments table and the merchants map untouched;
and only on `clear_exposure` success is the payment marked settled and the
local exposure of its merchant decreased by the payment amount. -/
theorem handleSettle_spec (led : Ledger) (st : AegisState) (txHash : String) :
    (mapGet st.payments txHash = none →
      handleSettle led st txHash =
        (led, st, ⟨false, "", 0, "Payment record not found"⟩)) ∧
    (∀ p, mapGet st.payments txHash = some p →
      p.status ≠ PayStatus.pending →
      handleSettle led st txHash =
        (led, st, ⟨false, p.merchant, p.amount,
          "Payment already " ++ p.status.toStr⟩)) ∧
    (∀ p e, mapGet st.payments txHash = some p →
      p.status = PayStatus.pending →
      ledgerClearExposure led p.merchant p.amount = .error e →
      handleSettle led st txHash = (led, st, ⟨false, p.merchant, p.amount, e⟩)) ∧
    (∀ p led', mapGet st.payments txHash = some p →
      p.status = PayStatus.pending →
      ledgerClearExposure led p.merchant p.amount = .ok led' →
      (handleSettle led st txHash).1 = led' ∧
      (handleSettle led st txHash).2.2 = ⟨true, p.merchant, p.amount,
        "Exposure cleared successfully"⟩ ∧
      (handleSettle led st txHash).2.1.payments =
        mapSet st.payments txHash { p with status := .settled } ∧
      (∀ m, mapGet st.merchants (strLower p.merchant) = some m →
        (handleSettle led st txHash).2.1.merchants =
          mapSet st.merchants (strLower p.merchant)
            { m with exposure := m.exposure - p.amount })) := by
  refine ⟨?_, ?_, ?_, ?_⟩
  · intro hnone
    unfold handleSettle
    rw [hnone]
  · intro p hp hs
    unfold handleSettle
    rw [hp]
    simp [hs]
  · intro p e hp hs hc
    unfold handleSettle
    rw [hp]
    simp [hs, hc]
  · intro p led' hp hs hc
    unfold handleSettle
    rw [hp]
    refine ⟨?_, ?_, ?_, ?_⟩
    · simp [hs, hc]
    · simp [hs, hc]
    · simp [hs, hc]
    · intro m hm
      simp [hs, hc, hm]

/-- C4 witness: settling the tracked pending payment on the sample state
succeeds, clears the ledger exposure and decreases the local exposure. -/
theorem handleSettle_spec_witness :
    (handleSettle ledP stP "0xt1").1 = ⟨[("0xmmm", ledMerch1)]⟩ ∧
    (handleSettle ledP stP "0xt1").2.2 = ⟨true, "0xmmm", 30,
      "Exposure cleared successfully"⟩ := by
  have hthm := (handleSettle_spec ledP stP "0xt1").2.2.2 payP
    ⟨[("0xmmm", ledMerch1)]⟩ (by decide) (by decide) (by rfl)
  exact ⟨hthm.1, hthm.2.1⟩

/-- C5: for a pending payment, `handleSlash` fails with the wait message when
the deadline has not yet passed, and - once the deadline has passed - fails
with the authorization message when the bond payer differs case-insensitively
from the recorded client; in both failure cases the ledger, the payments
table and the merchants map are all left unchanged. -/
theorem handleSlash_preconditions (led : Ledger) (st : AegisState)
    (txHash clientAddress : String) (now : Int) (p : PaymentRecord)
    (hp : mapGet st.payments txHash = some p)
    (hpend : p.status = PayStatus.pending) :
    (now < p.deadline →
      handleSlash led st txHash clientAddress now =
        (led, st, ⟨false, p.merchant, clientAddress, 0, none,
          "Deadline not yet passed. Wait " ++ toString (p.deadline - now)
            ++ " seconds"⟩)) ∧
    (p.deadline ≤ now → strLower p.client ≠ strLower clientAddress →
      handleSlash led st txHash clientAddress now =
        (led, st, ⟨false, p.merchant, clientAddress, 0, none,
          "Only the original client can slash"⟩)) := by
  constructor
  · intro hlt
    unfold handleSlash
    rw [hp]
    simp [hpend, hlt]
  · intro hge hcl
    unfold handleSlash
    rw [hp]
    simp [hpend, not_lt.mpr hge, hcl]

/-- C5 witness: before the deadline the sample slash attempt is refused with
the wait message; after the deadline a different bond payer is refused with
the authorization message. -/
theorem handleSlash_preconditions_witness :
    handleSlash ledP stP "0xt1" "0xccc" 2000 =
      (ledP, stP, ⟨false, "0xmmm", "0xccc", 0, none,
        "Deadline not yet passed. Wait 2600 seconds"⟩) ∧
    handleSlash ledP stP "0xt1" "0xddd" 5000 =
      (ledP, stP, ⟨false, "0xmmm", "0xddd", 0, none,
        "Only the original client can slash"⟩) := by
  constructor
  · exact (handleSlash_preconditions ledP stP "0xt1" "0xccc" 2000 payP
      (by decide) (by decide)).1 (by decide)
  · exact (handleSlash_preconditions ledP stP "0xt1" "0xddd" 5000 payP
      (by decide) (by decide)).2 (by decide) (by decide)

/-- C6: when the on-ledger `record_payment` fails during payment detection,
the event is dropped: the ledger and the whole registry state are unchanged,
so no payment record is inserted and the local exposure stays put.  In
particular this happens for a merchant whose on-ledger credit limit is zero
and any positive transfer amount (on-ledger quantities are unsigned, hence
the non-negativity hypothesis on the outstanding exposure). -/
theorem onPaymentDetected_recordFailure (cfg : Config) (agentAddr : String)
    (led : Ledger) (st : AegisState) (ev : TransferEvent) :
    ((∃ e, ledgerRecordPayment led ev.toAddr ev.amount = .error e) →
      onPaymentDetected cfg agentAddr led st ev = (led, st)) ∧
    ((ledgerView led ev.toAddr).creditLimit = 0 → 0 < ev.amount →
      0 ≤ (ledgerView led ev.toAddr).outstandingExposure →
      onPaymentDetected cfg agentAddr led st ev = (led, st)) := by
  have hfail : ∀ e, ledgerRecordPayment led ev.toAddr ev.amount = .error e →
      onPaymentDetected cfg agentAddr led st ev = (led, st) := by
    intro e he
    unfold onPaymentDetected
    by_cases hself : strLower ev.fromAddr = strLower agentAddr
    · simp [hself]
    · simp only [if_neg hself]
      cases hm : mapGet st.merchants (strLower ev.toAddr) with
      | none => rfl
      | some merchant => rw [he]
  constructor
  · rintro ⟨e, he⟩
    exact hfail e he
  · intro hcl hpos hexp
    by_cases hact : (ledgerView led ev.toAddr).active = true
    · apply hfail "Credit exceeded"
      unfold ledgerRecordPayment
      rw [if_neg (by simp [hact]), if_pos (by rw [hcl]; omega)]
    · apply hfail "Not active"
      unfold ledgerRecordPayment
      rw [if_pos (by simp [Bool.not_eq_true] at hact; simp [hact])]

/-- C6 witness: with a zero credit limit on-ledger, detecting the sample
30-unit transfer leaves the ledger and the registry exactly as they were. -/
theorem onPaymentDetected_recordFailure_witness :
    onPaymentDetected cfgD "0xaegis" ledZeroCL st1 ev1 = (ledZeroCL, st1) :=
  (onPaymentDetected_recordFailure cfgD "0xaegis" ledZeroCL st1 ev1).2
    (by decide) (by decide) (by decide)

/-- C2 counterexample: the payment `0xt1` is already settled, yet a
re-delivered `onPaymentDetected` for the same transaction hash (with
on-ledger capacity available) overwrites the record and resets its status to
pending, so a terminal status is not permanent under PaymentDetected. -/
theorem terminal_overwritten_by_duplicate :
    mapGet stTerm.payments "0xt1" = some settledPay ∧
    settledPay.status = PayStatus.settled ∧
    (mapGet (onPaymentDetected cfgD "0xaegis" led1 stTerm ev1).2.payments
        "0xt1").map PaymentRecord.status = some PayStatus.pending := by
  decide

/-- C2 (amended): a payment whose status is settled, slashed or expired is
never changed by any subsequent `handleSettle`, `handleSlash` or
`checkDeadlines`, nor by an `onPaymentDetected` for a transfer with a
different transaction hash; only a re-delivered `onPaymentDetected` bearing
the very same transaction hash can overwrite the record, because the source
performs no duplicate check. -/
theorem terminal_payment_permanent (led : Ledger) (st : AegisState)
    (h : String) (p : PaymentRecord)
    (hp : mapGet st.payments h = some p)
    (hterm : p.status = PayStatus.settled ∨ p.status = PayStatus.slashed ∨
      p.status = PayStatus.expired) :
    (∀ tx, mapGet (handleSettle led st tx).2.1.payments h = some p) ∧
    (∀ tx c now, mapGet (handleSlash led st tx c now).2.1.payments h = some p) ∧
    (∀ now, (st.payments.map Prod.fst).Nodup →
      mapGet (checkDeadlines now led st).2.payments h = some p) ∧
    (∀ cfg agentAddr ev, ev.txHash ≠ h →
      mapGet (onPaymentDetected cfg agentAddr led st ev).2.payments h = some p) := by
  have hpend : p.status ≠ PayStatus.pending := by
    rcases hterm with hs | hs | hs <;> rw [hs] <;> intro hc <;> cases hc
  refine ⟨?_, ?_, ?_, ?_⟩
  · intro tx
    unfold handleSettle
    cases hq : mapGet st.payments tx with
    | none => exact hp
    | some q =>
      by_cases hqs : q.status = PayStatus.pending
      · have htx : tx ≠ h := by
          rintro rfl
          rw [hp] at hq
          cases hq
          exact hpend hqs
        simp only [hqs, ne_eq, not_true_eq_false, if_false]
        split
        · exact hp
        · simpa [mapGet_mapSet_ne _ _ htx] using hp
      · simp [hqs, hp]
  · intro tx c now
    unfold handleSlash
    cases hq : mapGet st.payments tx with
    | none => exact hp
    | some q =>
      by_cases hqs : q.status = PayStatus.pending
      · have htx : tx ≠ h := by
          rintro rfl
          rw [hp] at hq
          cases hq
          exact hpend hqs
        simp only [hqs, ne_eq, not_true_eq_false, if_false]
        by_cases hd : now < q.deadline
        · simp [hd, hp]
        · simp only [if_neg hd]
          by_cases hcl : strLower q.client = strLower c
          · simp only [hcl, ne_eq, not_true_eq_false, if_false]
            split
            · exact hp
            · simpa [mapGet_mapSet_ne _ _ htx] using hp
          · simp [hcl, hp]
      · simp [hqs, hp]
  · intro now hn
    apply foldl_tickStep_preserves now st.payments (led, st) _ hp
    intro kv hkv
    by_cases hk : kv.1 = h
    · right
      rw [mapGet_unique hn hp kv hkv hk]
      exact hpend
    · exact Or.inl hk
  · intro cfg agentAddr ev hne
    unfold onPaymentDetected
    by_cases hself : strLower ev.fromAddr = strLower agentAddr
    · simp [hself, hp]
    · simp only [if_neg hself]
      cases hm : mapGet st.merchants (strLower ev.toAddr) with
      | none => exact hp
      | some merchant =>
        cases hr : ledgerRecordPayment led ev.toAddr ev.amount with
        | error e => exact hp
        | ok led' => simpa [mapGet_mapSet_ne _ _ hne] using hp

/-- C2 witness: the settled sample payment survives a settle attempt, a
deadline sweep and a detection of an unrelated transfer untouched. -/
theorem terminal_payment_permanent_witness :
    mapGet (handleSettle led1 stTerm "0xt1").2.1.payments "0xt1" =
      some settledPay ∧
    mapGet (checkDeadlines 99999 led1 stTerm).2.payments "0xt1" =
      some settledPay ∧
    mapGet (onPaymentDetected cfgD "0xaegis" led1 stTerm
      { ev1 with txHash := "0xt2" }).2.payments "0xt1" = some settledPay := by
  have hthm := terminal_payment_permanent led1 stTerm "0xt1" settledPay
    (by decide) (Or.inl (by decide))
  exact ⟨hthm.1 "0xt1", hthm.2.2.1 99999 (by decide),
    hthm.2.2.2 cfgD "0xaegis" { ev1 with txHash := "0xt2" } (by decide)⟩

/-- C9: when the merchant recorded on a payment has no entry in the merchants
map, settle, slash and deadline expiry still succeed after the on-ledger
call, mark the payment settled, slashed or expired respectively, and leave
the merchants map completely unchanged (no local exposure or stake decrement
happens). -/
theorem missing_merchant_frame (led : Ledger) (st : AegisState)
    (txHash : String) (p : PaymentRecord)
    (hp : mapGet st.payments txHash = some p)
    (hpend : p.status = PayStatus.pending)
    (habsent : mapGet st.merchants (strLower p.merchant) = none) :
    (∀ led', ledgerClearExposure led p.merchant p.amount = .ok led' →
      handleSettle led st txHash =
        (led',
          { st with
            payments :=
              mapSet st.payments txHash ({ p with status := .settled }) },
          ⟨true, p.merchant, p.amount, "Exposure cleared successfully"⟩)) ∧
    (∀ c now led', p.deadline ≤ now → strLower p.client = strLower c →
      ledgerSlash led p.merchant p.amount = .ok led' →
      handleSlash led st txHash c now =
        (led',
          { st with
            payments :=
              mapSet st.payments txHash ({ p with status := .slashed }) },
          ⟨true, p.merchant, c, p.amount, some "slash-receipt",
            "Merchant slashed, client refunded"⟩)) ∧
    (∀ now led' l₁ l₂, st.payments = l₁ ++ (txHash, p) :: l₂ →
      (∀ kv ∈ l₁ ++ l₂,
        kv.2.status ≠ PayStatus.pending ∨ now < kv.2.deadline) →
      p.deadline ≤ now →
      ledgerClearExposure led p.merchant p.amount = .ok led' →
      checkDeadlines now led st =
        (led',
          { st with
            payments :=
              mapSet st.payments txHash ({ p with status := .expired }) })) := by
  refine ⟨?_, ?_, ?_⟩
  · intro led' hc
    unfold handleSettle
    rw [hp]
    simp [hpend, hc, habsent]
  · intro c now led' hge hcl hc
    unfold handleSlash
    rw [hp]
    simp [hpend, not_lt.mpr hge, hcl, hc, habsent]
  · intro now led' l₁ l₂ hsplit hother hdue hc
    rw [checkDeadlines_focus now led st l₁ l₂ txHash p hsplit hother hpend hdue,
      hc, habsent]

/-- C9 witness: on a registry without the merchant entry, settling the
tracked pending payment succeeds and leaves the (empty) merchants map
unchanged. -/
theorem missing_merchant_frame_witness :
    handleSettle ledP stNoMerch "0xt1" =
      (⟨[("0xmmm", ledMerch1)]⟩,
        { stNoMerch with
          payments :=
            mapSet stNoMerch.payments "0xt1" ({ payP with status := .settled }) },
        ⟨true, "0xmmm", 30, "Exposure cleared successfully"⟩) :=
  (missing_merchant_frame ledP stNoMerch "0xt1" payP (by decide) (by decide)
    (by decide)).1 ⟨[("0xmmm", ledMerch1)]⟩ (by rfl)

/-- Every run of `handleSubscribe` either leaves the registry untouched or
reports success: the registry mutation is the last step of the procedure. -/
theorem handleSubscribe_state_or (o : SubscribeOracles) (st : AegisState)
    (request : SubscribeRequest) (merchantAddress : String)
    (stakeAmount : Int) (now : Int) :
    (handleSubscribe o st request merchantAddress stakeAmount now).1 = st ∨
    (handleSubscribe o st request merchantAddress stakeAmount now).2.success
      = true := by
  unfold handleSubscribe
  split
  · left; rfl
  · split
    · left; rfl
    · split
      · left; rfl
      · split
        · left; rfl
        · split
          · left; rfl
          · split
            · left; rfl
            · split
              · left; rfl
              · right; rfl

/-- A successful `handleSubscribe` wrote exactly the new merchant record
under the lowercased address key. -/
theorem handleSubscribe_success (o : SubscribeOracles) (st : AegisState)
    (request : SubscribeRequest) (merchantAddress : String)
    (stakeAmount : Int) (now : Int)
    (hsucc : (handleSubscribe o st request merchantAddress stakeAmount
      now).2.success = true) :
    ∃ rho, o.repFactor = .ok rho ∧
      (handleSubscribe o st request merchantAddress stakeAmount now).1.merchants
        = mapSet st.merchants (strLower merchantAddress)
          { address := merchantAddress, agentId := request.agentId,
            x402Endpoint := request.x402Endpoint, skills := request.skills,
            stake := stakeAmount,
            creditLimit := calculateCreditLimit stakeAmount rho,
            exposure := 0, registeredAt := now, active := true } := by
  unfold handleSubscribe at hsucc ⊢
  split at hsucc
  · cases hsucc
  · next rho hrho =>
    split at hsucc
    · cases hsucc
    · split at hsucc
      · cases hsucc
      · split at hsucc
        · cases hsucc
        · split at hsucc
          · cases hsucc
          · split at hsucc
            · cases hsucc
            · split at hsucc
              · cases hsucc
              · exact ⟨rho, hrho, by simp_all [← not_lt]⟩

/-- C3: `handleSubscribe` is atomic on failure.  Whenever the response
reports failure the registry (merchants map, skill index, watch set) is
exactly the input state; and each failing external step - the approval, the
allowance read, an insufficient allowance, the on-ledger merchant read, the
`subscribeFor` call, the `setCreditLimit` call - produces the failure
response carrying that reason, with the untouched state. -/
theorem handleSubscribe_atomic (o : SubscribeOracles) (st : AegisState)
    (request : SubscribeRequest) (merchantAddress : String)
    (stakeAmount : Int) (now : Int) :
    ((handleSubscribe o st request merchantAddress stakeAmount now).2.success
        = false →
      (handleSubscribe o st request merchantAddress stakeAmount now).1 = st) ∧
    (∀ rho, o.repFactor = .ok rho →
      (∀ e, o.approve = .error e →
        handleSubscribe o st request merchantAddress stakeAmount now =
          (st, subscribeFail merchantAddress stakeAmount e)) ∧
      (o.approve = .ok () →
        (∀ e, o.allowance = .error e →
          handleSubscribe o st request merchantAddress stakeAmount now =
            (st, subscribeFail merchantAddress stakeAmount e)) ∧
        (∀ a, o.allowance = .ok a →
          (a < stakeAmount →
            handleSubscribe o st request merchantAddress stakeAmount now =
              (st, subscribeFail merchantAddress stakeAmount
                ("Allowance too low! approved=" ++ toString a
                  ++ ", required=" ++ toString stakeAmount))) ∧
          (stakeAmount ≤ a →
            (∀ e, o.merchantActive = .error e →
              handleSubscribe o st request merchantAddress stakeAmount now =
                (st, subscribeFail merchantAddress stakeAmount e)) ∧
            (∀ e, o.merchantActive = .ok false →
              o.subscribeForCall = .error e →
              handleSubscribe o st request merchantAddress stakeAmount now =
                (st, subscribeFail merchantAddress stakeAmount e)) ∧
            (∀ act e, o.merchantActive = .ok act →
              (act = true ∨ o.subscribeForCall = .ok ()) →
              o.setCreditLimitCall = .error e →
              handleSubscribe o st request merchantAddress stakeAmount now =
                (st, subscribeFail merchantAddress stakeAmount e)))))) := by
  constructor
  · intro hfail
    rcases handleSubscribe_state_or o st request merchantAddress stakeAmount
      now with h | h
    · exact h
    · rw [h] at hfail
      cases hfail
  · intro rho hrho
    refine ⟨?_, ?_⟩
    · intro e he
      simp [handleSubscribe, hrho, he]
    · intro hap
      refine ⟨?_, ?_⟩
      · intro e he
        simp [handleSubscribe, hrho, hap, he]
      · intro a ha
        refine ⟨?_, ?_⟩
        · intro hlt
          simp [handleSubscribe, hrho, hap, ha, hlt]
        · intro hge
          refine ⟨?_, ?_, ?_⟩
          · intro e he
            simp [handleSubscribe, hrho, hap, ha, not_lt.mpr hge, he]
          · intro e hma he
            simp [handleSubscribe, hrho, hap, ha, not_lt.mpr hge, hma, he]
          · intro act e hma hsub he
            rcases hsub with hact | hsub
            · subst hact
              simp [handleSubscribe, hrho, hap, ha, not_lt.mpr hge, hma, he]
            · simp [handleSubscribe, hrho, hap, ha, not_lt.mpr hge, hma,
                hsub, he]

/-- C3 witness: with a failing approval transaction, subscription on the
sample state returns the failure response carrying the approval error and the
registry is exactly the input state. -/
theorem handleSubscribe_atomic_witness :
    handleSubscribe oApproveFail st1 reqW "0xnew" 50 0 =
      (st1, subscribeFail "0xnew" 50 "approve failed") :=
  ((handleSubscribe_atomic oApproveFail st1 reqW "0xnew" 50 0).2 1
    (by rfl)).1 "approve failed" (by rfl)

/-- C7: on each deadline sweep, every pending payment whose deadline has
passed triggers a `clearExposure` call against the ledger state at its turn:
on success the payment is marked expired (first conjunct, for an arbitrary
entry of the table, other due entries included); on failure the payment stays
exactly as it was, still pending, so the next sweep selects it again.  When
the focused entry is the only one the sweep touches (second conjunct), the
full effect is pinned down: on failure the ledger and the whole registry are
unchanged, and on success the payment is expired and the local exposure of
its merchant is decreased by the payment amount. -/
theorem checkDeadlines_autoexpire (now : Int) (led : Ledger) (st : AegisState)
    (l₁ l₂ : List (String × PaymentRecord)) (h : String) (p : PaymentRecord)
    (hsplit : st.payments = l₁ ++ (h, p) :: l₂)
    (hkey : ∀ kv ∈ l₁ ++ l₂, kv.1 ≠ h)
    (hpend : p.status = PayStatus.pending) (hdue : p.deadline ≤ now) :
    (∃ ledMid : Ledger,
      (∀ led'', ledgerClearExposure ledMid p.merchant p.amount = .ok led'' →
        mapGet (checkDeadlines now led st).2.payments h =
          some ({ p with status := .expired })) ∧
      (∀ e, ledgerClearExposure ledMid p.merchant p.amount = .error e →
        mapGet (checkDeadlines now led st).2.payments h = some p)) ∧
    ((∀ kv ∈ l₁ ++ l₂,
        kv.2.status ≠ PayStatus.pending ∨ now < kv.2.deadline) →
      (∀ e, ledgerClearExposure led p.merchant p.amount = .error e →
        checkDeadlines now led st = (led, st)) ∧
      (∀ led', ledgerClearExposure led p.merchant p.amount = .ok led' →
        checkDeadlines now led st =
          (led',
            { st with
              payments := mapSet st.payments h
                ({ p with status := .expired }),
              merchants :=
                match mapGet st.merchants (strLower p.merchant) with
                | none => st.merchants
                | some m => mapSet st.merchants (strLower p.merchant)
                    ({ m with exposure := m.exposure - p.amount }) }))) := by
  have hk₁ : ∀ kv ∈ l₁, kv.1 ≠ h :=
    fun kv hkv => hkey kv (List.mem_append_left _ hkv)
  have hk₂ : ∀ kv ∈ l₂, kv.1 ≠ h :=
    fun kv hkv => hkey kv (List.mem_append_right _ hkv)
  have hinit : mapGet st.payments h = some p := by
    rw [hsplit]
    exact mapGet_append_cons l₁ h p l₂ hk₁
  have hA : mapGet ((l₁.foldl (tickStep now) (led, st)).2.payments) h
      = some p :=
    foldl_tickStep_preserves now l₁ (led, st)
      (fun kv hkv => Or.inl (hk₁ kv hkv)) hinit
  constructor
  · refine ⟨(l₁.foldl (tickStep now) (led, st)).1, ?_, ?_⟩
    · intro led'' hok
      unfold checkDeadlines
      rw [hsplit, List.foldl_append, List.foldl_cons,
        tickStep_eligible now _ h p hpend hdue, hok]
      exact foldl_tickStep_preserves now l₂ _
        (fun kv hkv => Or.inl (hk₂ kv hkv)) (mapGet_mapSet_self _ _ _)
    · intro e herr
      unfold checkDeadlines
      rw [hsplit, List.foldl_append, List.foldl_cons,
        tickStep_eligible now _ h p hpend hdue, herr]
      exact foldl_tickStep_preserves now l₂ _
        (fun kv hkv => Or.inl (hk₂ kv hkv)) hA
  · intro hother
    have hfocus := checkDeadlines_focus now led st l₁ l₂ h p hsplit hother
      hpend hdue
    exact ⟨fun e he => by rw [hfocus, he], fun led' hc => by rw [hfocus, hc]⟩

/-- C7 witness: at time 5000 the sample pending payment (deadline 4600) is
auto-expired; the ledger exposure is cleared and the local exposure drops by
the payment amount. -/
theorem checkDeadlines_autoexpire_witness :
    checkDeadlines 5000 ledP stP =
      (⟨[("0xmmm", ledMerch1)]⟩,
        { stP with
          payments :=
            mapSet stP.payments "0xt1" ({ payP with status := .expired }),
          merchants :=
            match mapGet stP.merchants (strLower payP.merchant) with
            | none => stP.merchants
            | some m => mapSet stP.merchants (strLower payP.merchant)
                ({ m with exposure := m.exposure - payP.amount }) }) :=
  ((checkDeadlines_autoexpire 5000 ledP stP [] [] "0xt1" payP (by rfl)
    (by simp) (by decide) (by decide)).2 (by simp)).2
    ⟨[("0xmmm", ledMerch1)]⟩ (by rfl)

/-- Pointwise lowercase-equal character lists map to equal lists under
lowercasing. -/
theorem map_toLower_eq_of_forall₂ {l₁ l₂ : List Char}
    (h : List.Forall₂ (fun c d => c.toLower = d.toLower) l₁ l₂) :
    l₁.map Char.toLower = l₂.map Char.toLower := by
  induction h with
  | nil => rfl
  | cons hcd _ ih => simp [hcd, ih]

/-- Case variants lowercase to the same string. -/
theorem strLower_eq_of_caseVariant {a b : String} (h : CaseVariant a b) :
    strLower a = strLower b := by
  unfold strLower
  congr 1
  exact map_toLower_eq_of_forall₂ h

/-- C10: merchant lookup is case-insensitive.  `getMerchant` resolves any two
case variants of an address to the same result, and a successful
`handleSubscribe` keys the registry by the lowercased merchant address, so
the new record is found under every case variant of the subscribed
address. -/
theorem getMerchant_case_insensitive :
    (∀ (st : AegisState) (a b : String), CaseVariant a b →
      getMerchant st a = getMerchant st b) ∧
    (∀ (o : SubscribeOracles) (st : AegisState) (request : SubscribeRequest)
      (merchantAddress : String) (stakeAmount : Int) (now : Int)
      (b : String), CaseVariant merchantAddress b →
      (handleSubscribe o st request merchantAddress stakeAmount
        now).2.success = true →
      ∃ m, getMerchant
          (handleSubscribe o st request merchantAddress stakeAmount now).1 b
          = some m ∧
        m.address = merchantAddress ∧ m.stake = stakeAmount ∧
        m.active = true) := by
  constructor
  · intro st a b h
    unfold getMerchant
    rw [strLower_eq_of_caseVariant h]
  · intro o st request merchantAddress stakeAmount now b hcv hsucc
    obtain ⟨rho, _, hm⟩ := handleSubscribe_success o st request
      merchantAddress stakeAmount now hsucc
    refine ⟨{ address := merchantAddress,
              agentId := request.agentId,
              x402Endpoint := request.x402Endpoint,
              skills := request.skills,
              stake := stakeAmount,
              creditLimit := calculateCreditLimit stakeAmount rho,
              exposure := 0,
              registeredAt := now,
              active := true }, ?_, rfl, rfl, rfl⟩
    unfold getMerchant
    rw [← strLower_eq_of_caseVariant hcv, hm, mapGet_mapSet_self]

/-- C10 witness: after subscribing the mixed-case address `0xAbC`, the
merchant is found under the all-uppercase variant `0XABC`. -/
theorem getMerchant_case_insensitive_witness :
    ∃ m, getMerchant
        (handleSubscribe oAllOk st1 reqW "0xAbC" 100 0).1 "0XABC" = some m ∧
      m.address = "0xAbC" ∧ m.stake = 100 ∧ m.active = true :=
  getMerchant_case_insensitive.2 oAllOk st1 reqW "0xAbC" 100 0 "0XABC"
    (.cons (by decide) (.cons (by decide) (.cons (by decide)
      (.cons (by decide) (.cons (by decide) .nil))))) (by rfl)

/-- The integer comparison of dyadic values agrees with the comparison of
their exact rational values. -/
theorem Dyadic.le_iff_val {x y : Dyadic} : Dyadic.le x y ↔ x.val ≤ y.val := by
  have h2 : (0 : ℚ) < 2 := by norm_num
  have hz : (2 : ℚ) ≠ 0 := by norm_num
  unfold Dyadic.le Dyadic.ble Dyadic.val
  by_cases h : x.exponent ≤ y.exponent
  · rw [if_pos h, decide_eq_true_eq]
    have key : (y.mantissa : ℚ) * (2 : ℚ) ^ y.exponent =
        ((y.mantissa * 2 ^ (y.exponent - x.exponent).toNat : Int) : ℚ)
          * (2 : ℚ) ^ x.exponent := by
      push_cast
      rw [mul_assoc, ← zpow_natCast (2 : ℚ) (y.exponent - x.exponent).toNat,
        Int.toNat_of_nonneg (by omega), ← zpow_add₀ hz, sub_add_cancel]
    rw [key, mul_le_mul_right (zpow_pos h2 x.exponent), Int.cast_le]
  · rw [if_neg h, decide_eq_true_eq]
    have key : (x.mantissa : ℚ) * (2 : ℚ) ^ x.exponent =
        ((x.mantissa * 2 ^ (x.exponent - y.exponent).toNat : Int) : ℚ)
          * (2 : ℚ) ^ y.exponent := by
      push_cast
      rw [mul_assoc, ← zpow_natCast (2 : ℚ) (x.exponent - y.exponent).toNat,
        Int.toNat_of_nonneg (by omega), ← zpow_add₀ hz, sub_add_cancel]
    rw [key, mul_le_mul_right (zpow_pos h2 y.exponent), Int.cast_le]

/-- The dyadic order is total. -/
theorem Dyadic.le_total' (x y : Dyadic) : Dyadic.le x y ∨ Dyadic.le y x := by
  rw [Dyadic.le_iff_val, Dyadic.le_iff_val]
  exact le_total x.val y.val

/-- The dyadic order is transitive. -/
theorem Dyadic.le_trans' {x y z : Dyadic} (hxy : Dyadic.le x y)
    (hyz : Dyadic.le y z) : Dyadic.le x z := by
  rw [Dyadic.le_iff_val] at *
  exact le_trans hxy hyz

/-- C8 (amended): quote filtering, fault tolerance and ranking.  The
returned list is a permutation of the filtered candidate list; every returned
entry stems from an active registered candidate whose fresh on-ledger read
succeeded with capacity at least the requested price; a candidate whose
per-merchant read fails, or whose fresh capacity is below the price,
contributes nothing (while the call as a whole still returns a list); and the
result is sorted in descending order of the ratio as the source computes it,
in double precision (`quoteKey`), with rounding ties kept in stable order:
the order `quotePrec` compares exactly the rational values of the double
ratios (the last-but-one conjunct), and the sorted output is pairwise
ordered by it. -/
theorem handleQuote_spec (st : AegisState)
    (readM : String → Except String LedgerMerchant)
    (readRep : String → Except String ℚ) (skill : String) (price : Int) :
    (handleQuote st readM readRep skill price).Perm
      (((mapGet st.skillIndex skill).getD []).filterMap
        (quoteCandidate st readM readRep price)) ∧
    (∀ q ∈ handleQuote st readM readRep skill price,
      ∃ addr ∈ (mapGet st.skillIndex skill).getD [],
      ∃ m d rho, mapGet st.merchants addr = some m ∧ m.active = true ∧
        readM addr = .ok d ∧ readRep addr = .ok rho ∧
        price ≤ d.creditLimit - d.outstandingExposure ∧
        q = ⟨m.address, m.x402Endpoint,
          d.creditLimit - d.outstandingExposure, rho, m.skills⟩) ∧
    (∀ addr, (∃ e, readM addr = .error e) →
      quoteCandidate st readM readRep price addr = none) ∧
    (∀ addr m d, mapGet st.merchants addr = some m → readM addr = .ok d →
      d.creditLimit - d.outstandingExposure < price →
      quoteCandidate st readM readRep price addr = none) ∧
    (∀ a b : QuoteEntry, quotePrec price a b ↔
      (quoteKey price b).val ≤ (quoteKey price a).val) ∧
    (handleQuote st readM readRep skill price).Pairwise
      (quotePrec price) := by
  refine ⟨?_, ?_, ?_, ?_, ?_, ?_⟩
  · exact List.perm_insertionSort _ _
  · intro q hq
    have hq' : q ∈ ((mapGet st.skillIndex skill).getD []).filterMap
        (quoteCandidate st readM readRep price) :=
      (List.mem_insertionSort _).mp hq
    obtain ⟨addr, haddr, hsome⟩ := List.mem_filterMap.mp hq'
    refine ⟨addr, haddr, ?_⟩
    unfold quoteCandidate at hsome
    cases hm : mapGet st.merchants addr with
    | none => rw [hm] at hsome; cases hsome
    | some m =>
      rw [hm] at hsome
      dsimp only at hsome
      by_cases hact : m.active = true
      · rw [hact] at hsome
        simp only [Bool.not_true] at hsome
        rw [if_neg (by simp)] at hsome
        cases hr : readM addr with
        | error e => rw [hr] at hsome; exact Option.noConfusion hsome
        | ok d =>
          rw [hr] at hsome
          dsimp only at hsome
          by_cases hcap : d.creditLimit - d.outstandingExposure < price
          · rw [if_pos hcap] at hsome
            exact Option.noConfusion hsome
          · rw [if_neg hcap] at hsome
            cases hrep : readRep addr with
            | error e => rw [hrep] at hsome; exact Option.noConfusion hsome
            | ok rho =>
              rw [hrep] at hsome
              dsimp only at hsome
              exact ⟨m, d, rho, rfl, hact, rfl, rfl, not_lt.mp hcap,
                (Option.some.inj hsome).symm⟩
      · have hact' : m.active = false := by
          cases hma : m.active
          · rfl
          · exact absurd hma hact
        rw [hact'] at hsome
        simp only [Bool.not_false] at hsome
        rw [if_pos (by trivial)] at hsome
        exact Option.noConfusion hsome
  · rintro addr ⟨e, he⟩
    unfold quoteCandidate
    cases hm : mapGet st.merchants addr with
    | none => rfl
    | some m =>
      dsimp only
      by_cases hact : m.active = true
      · rw [hact]
        simp only [Bool.not_true]
        rw [if_neg (by simp), he]
      · have hact' : m.active = false := by
          cases hma : m.active
          · rfl
          · exact absurd hma hact
        rw [hact']
        simp only [Bool.not_false]
        rw [if_pos (by trivial)]
  · intro addr m d hm hr hcap
    unfold quoteCandidate
    rw [hm]
    dsimp only
    by_cases hact : m.active = true
    · rw [hact]
      simp only [Bool.not_true]
      rw [if_neg (by simp), hr]
      dsimp only
      rw [if_pos hcap]
    · have hact' : m.active = false := by
        cases hma : m.active
        · rfl
        · exact absurd hma hact
      rw [hact']
      simp only [Bool.not_false]
      rw [if_pos (by trivial)]
  · intro a b
    exact Dyadic.le_iff_val
  · haveI : IsTotal QuoteEntry (quotePrec price) :=
      ⟨fun a b => Dyadic.le_total' (quoteKey price b) (quoteKey price a)⟩
    haveI : IsTrans QuoteEntry (quotePrec price) :=
      ⟨fun a b c hab hbc => Dyadic.le_trans' hbc hab⟩
    exact List.sorted_insertionSort (quotePrec price)
      (((mapGet st.skillIndex skill).getD []).filterMap
        (quoteCandidate st readM readRep price))

/-- C8 witness: on the sample state, merchants with capacities 80 and 50
survive a quote at price 10 (the third candidate is dropped by its failing
read) and come out ranked by the double-precision capacity-to-price ratio in
descending order. -/
theorem handleQuote_spec_witness :
    handleQuote stQ readMW readRepW "translate" 10 =
      [⟨"0xBBB", "http://m", 80, 1, ["translate"]⟩,
       ⟨"0xAAA", "http://m", 50, 1, ["translate"]⟩] ∧
    (handleQuote stQ readMW readRepW "translate" 10).Pairwise (quotePrec 10) :=
  ⟨by decide,
    (handleQuote_spec stQ readMW readRepW "translate" 10).2.2.2.2.2⟩

/-- C8 counterexample: at price 1 with fresh capacities `2 ^ 53` and
`2 ^ 53 + 1` (in that candidate order), `Number(BigInt(...))` rounds
`2 ^ 53 + 1` down to `2 ^ 53`, the two comparator ratios tie, and the stable
sort keeps the smaller capacity first, so the output is not sorted by the
exact capacity-to-price ratio in descending order. -/
theorem handleQuote_not_exact_sorted :
    handleQuote stQbig readMbig readRepW "translate" 1 =
      [⟨"0xAAA", "http://m", 9007199254740992, 1, ["translate"]⟩,
       ⟨"0xBBB", "http://m", 9007199254740993, 1, ["translate"]⟩] ∧
    ¬ (handleQuote stQbig readMbig readRepW "translate" 1).Pairwise
      (fun a b => b.availableCapacity ≤ a.availableCapacity) := by
  constructor
  · decide
  · decide

end Aegis
